import Mathlib

/-!
Verification of the evidence retrieval, ranking and verdict aggregation engine
of the fact-checking service.  The Python sources are shallowly embedded:
floats become rationals, dict records become structures, network calls become
explicit parameters carrying the data a call would return, and caught
exceptions become Except / Option values.
-/

/-- An RDF edge, from the dataclass Edge in app/models. -/
structure Edge where
  subject : String
  predicate : String
  object : String
  source_kg : String
deriving DecidableEq

/-- The extracted claim triple, from the dataclass Triple in app/models. -/
structure Triple where
  subject : String
  predicate : String
  object : String
deriving DecidableEq

/-- Rounding half up to the nearest integer.  Python round on floats is
half-to-even; the two agree except on exact decimal half ties, which none of
the verified statements depend on. -/
def roundHalfUp (q : ℚ) : ℤ := ⌊q + 1/2⌋

/-- Rounding to d decimal digits, as Python round(x, d). -/
def roundTo (d : ℕ) (q : ℚ) : ℚ := (roundHalfUp (q * 10 ^ d) : ℚ) / 10 ^ d

/-- One web or KG evidence record as consumed by verdict._aggregate:
a dict with snippet, source and trust fields. -/
structure EvidenceItem where
  snippet : String
  source : String
  trust : ℚ
deriving DecidableEq

/-- One NLI oracle output as consumed by verdict._aggregate:
a dict with label and confidence fields. -/
structure NliOut where
  label : String
  confidence : ℚ
deriving DecidableEq

/-- One annotated entry of the evidence trail built by verdict._aggregate. -/
structure EvEntry where
  snippet : String
  source : String
  nli : String
  confidence : ℚ
  trust : ℚ
  weight : ℚ
deriving DecidableEq

/-- The trail entry logged for one (evidence, nli) pair in verdict._aggregate. -/
def entryOf (p : EvidenceItem × NliOut) : EvEntry :=
  { snippet := p.1.snippet
    source := p.1.source
    nli := p.2.label
    confidence := roundTo 3 p.2.confidence
    trust := roundTo 2 p.1.trust
    weight := roundTo 3 (p.1.trust * p.2.confidence) }

/-- One iteration of the evidence loop of verdict._aggregate: the accumulator
holds (support, refute, final_ev). -/
def aggregateStep (acc : ℚ × ℚ × List EvEntry) (p : EvidenceItem × NliOut) :
    ℚ × ℚ × List EvEntry :=
  let weight := p.1.trust * p.2.confidence
  ( if p.2.label = "entailment" then acc.1 + weight else acc.1,
    if p.2.label = "contradiction" then acc.2.1 + weight else acc.2.1,
    acc.2.2 ++ [entryOf p] )

/-- app/core/crew/verdict.py _aggregate: weighted NLI vote.  Returns
(label, confidence, final_ev). -/
def _aggregate (evidence : List EvidenceItem) (nli_out : List NliOut) :
    String × ℚ × List EvEntry :=
  let acc := (evidence.zip nli_out).foldl aggregateStep (0, 0, [])
  let support := acc.1
  let refute := acc.2.1
  let total := support + refute
  let label :=
    if 6/10 < total ∧ 7/10 < max support refute / total then
      if refute < support then "Supported" else "Refuted"
    else "Not Enough Info"
  (label, roundTo 3 (max support refute), acc.2.2)

/-- Sum of weights of pairs labelled entailment. -/
def pairSupport (l : List (EvidenceItem × NliOut)) : ℚ :=
  ((l.filter (fun p => p.2.label = "entailment")).map
    (fun p => p.1.trust * p.2.confidence)).sum

/-- Sum of weights of pairs labelled contradiction. -/
def pairRefute (l : List (EvidenceItem × NliOut)) : ℚ :=
  ((l.filter (fun p => p.2.label = "contradiction")).map
    (fun p => p.1.trust * p.2.confidence)).sum

/-- support_mass of the claim wording: sum over the zipped lists of
trust times confidence for items labelled entailment. -/
def supportMass (evidence : List EvidenceItem) (nli_out : List NliOut) : ℚ :=
  pairSupport (evidence.zip nli_out)

/-- refute_mass of the claim wording. -/
def refuteMass (evidence : List EvidenceItem) (nli_out : List NliOut) : ℚ :=
  pairRefute (evidence.zip nli_out)

/-- The decision rule exactly as the specification words it: Supported when
total is above 0.6, the margin above 0.7 and support exceeds refute; Refuted
when total and margin pass but support does not exceed refute; otherwise
Not Enough Info. -/
def specVerdictLabel (s r : ℚ) : String :=
  let total := s + r
  if 6/10 < total ∧ 7/10 < max s r / total ∧ r < s then "Supported"
  else if 6/10 < total ∧ 7/10 < max s r / total ∧ s ≤ r then "Refuted"
  else "Not Enough Info"

theorem foldl_aggregateStep (l : List (EvidenceItem × NliOut))
    (acc : ℚ × ℚ × List EvEntry) :
    l.foldl aggregateStep acc =
      (acc.1 + pairSupport l, acc.2.1 + pairRefute l, acc.2.2 ++ l.map entryOf) := by
  induction l generalizing acc with
  | nil => simp [pairSupport, pairRefute]
  | cons p l ih =>
    rw [List.foldl_cons, ih]
    by_cases h1 : p.2.label = "entailment" <;>
      by_cases h2 : p.2.label = "contradiction" <;>
      simp [aggregateStep, pairSupport, pairRefute, List.filter_cons, h1, h2,
        add_assoc, add_comm, add_left_comm]

theorem aggregate_eq_masses (evidence : List EvidenceItem) (nli_out : List NliOut) :
    _aggregate evidence nli_out =
      ( specVerdictLabel (supportMass evidence nli_out) (refuteMass evidence nli_out),
        roundTo 3 (max (supportMass evidence nli_out) (refuteMass evidence nli_out)),
        (evidence.zip nli_out).map entryOf ) := by
  unfold _aggregate specVerdictLabel
  rw [foldl_aggregateStep]
  simp only [zero_add, List.nil_append]
  set s := supportMass evidence nli_out with hs
  set r := refuteMass evidence nli_out with hr
  rcases le_or_lt s r with h | h
  · by_cases hc : 6/10 < s + r ∧ 7/10 < max s r / (s + r)
    · simp [supportMass, refuteMass] at hs hr
      simp [← hs, ← hr, hc, hc.1, hc.2, not_lt.mpr h, h]
    · simp only [supportMass, refuteMass] at hs hr
      simp only [← hs, ← hr, if_neg hc]
      have hc1 : ¬(6/10 < s + r ∧ 7/10 < max s r / (s + r) ∧ r < s) := by
        rintro ⟨a, b, c⟩; exact hc ⟨a, b⟩
      have hc2 : ¬(6/10 < s + r ∧ 7/10 < max s r / (s + r) ∧ s ≤ r) := by
        rintro ⟨a, b, c⟩; exact hc ⟨a, b⟩
      simp [hc1, hc2]
  · by_cases hc : 6/10 < s + r ∧ 7/10 < max s r / (s + r)
    · simp [supportMass, refuteMass] at hs hr
      simp [← hs, ← hr, hc, hc.1, hc.2, h, not_le.mpr h]
    · simp only [supportMass, refuteMass] at hs hr
      simp only [← hs, ← hr, if_neg hc]
      have hc1 : ¬(6/10 < s + r ∧ 7/10 < max s r / (s + r) ∧ r < s) := by
        rintro ⟨a, b, c⟩; exact hc ⟨a, b⟩
      have hc2 : ¬(6/10 < s + r ∧ 7/10 < max s r / (s + r) ∧ s ≤ r) := by
        rintro ⟨a, b, c⟩; exact hc ⟨a, b⟩
      simp [hc1, hc2]

/-- Claim C1: the weighted-vote aggregator forms weights trust times
confidence, accumulates support and refute masses over entailment and
contradiction items, and labels by the 0.6 total and 0.7 margin thresholds
with Supported when support exceeds refute, Refuted when it does not, and
Not Enough Info otherwise; a single entailment item with trust 1 and
confidence 0.95 yields Supported. -/
theorem aggregate_label_characterisation :
    (∀ (evidence : List EvidenceItem) (nli_out : List NliOut),
      (_aggregate evidence nli_out).1 =
        specVerdictLabel (supportMass evidence nli_out) (refuteMass evidence nli_out)) ∧
    (_aggregate [⟨"Paris capital France", "dbpedia", 1⟩]
      [⟨"entailment", 19/20⟩]).1 = "Supported" := by
  constructor
  · intro evidence nli_out
    rw [aggregate_eq_masses]
  · rw [aggregate_eq_masses]
    have h : ("entailment" = "contradiction") = False := by
      simp only [eq_iff_iff, iff_false]; decide
    norm_num [specVerdictLabel, supportMass, refuteMass, pairSupport, pairRefute,
      List.filter_cons, List.filter_nil, h, max_def]

theorem roundTo_nonneg (d : ℕ) (q : ℚ) (hq : 0 ≤ q) : 0 ≤ roundTo d q := by
  unfold roundTo roundHalfUp
  have h1 : (0 : ℚ) ≤ q * 10 ^ d + 1/2 := by positivity
  have h2 : (0 : ℤ) ≤ ⌊q * 10 ^ d + 1/2⌋ := by
    have := Int.floor_mono h1
    simpa using this
  positivity

theorem pairSupport_nonneg (l : List (EvidenceItem × NliOut))
    (h : ∀ p ∈ l, 0 ≤ p.1.trust ∧ 0 ≤ p.2.confidence) : 0 ≤ pairSupport l := by
  unfold pairSupport
  apply List.sum_nonneg
  intro x hx
  obtain ⟨p, hp, rfl⟩ := List.mem_map.mp hx
  have hpl := List.mem_of_mem_filter hp
  exact mul_nonneg (h p hpl).1 (h p hpl).2

theorem pairRefute_nonneg (l : List (EvidenceItem × NliOut))
    (h : ∀ p ∈ l, 0 ≤ p.1.trust ∧ 0 ≤ p.2.confidence) : 0 ≤ pairRefute l := by
  unfold pairRefute
  apply List.sum_nonneg
  intro x hx
  obtain ⟨p, hp, rfl⟩ := List.mem_map.mp hx
  have hpl := List.mem_of_mem_filter hp
  exact mul_nonneg (h p hpl).1 (h p hpl).2

/-- Counterexample to claim C4: two contradiction items of trust 0.9 and
confidence 0.8 give confidence 1.44, outside the unit interval claimed by
the specification (these are the numbers of Scenario C of the spec). -/
theorem aggregate_confidence_exceeds_one :
    (_aggregate [⟨"w1", "web", 9/10⟩, ⟨"w2", "web", 9/10⟩]
        [⟨"contradiction", 8/10⟩, ⟨"contradiction", 8/10⟩]).2.1 = 36/25 ∧
    ¬ (_aggregate [⟨"w1", "web", 9/10⟩, ⟨"w2", "web", 9/10⟩]
        [⟨"contradiction", 8/10⟩, ⟨"contradiction", 8/10⟩]).2.1 ≤ 1 := by
  have h : ("contradiction" = "entailment") = False := by
    simp only [eq_iff_iff, iff_false]; decide
  rw [aggregate_eq_masses]
  norm_num [supportMass, refuteMass, pairSupport, pairRefute,
    List.filter_cons, List.filter_nil, h, max_def, roundTo, roundHalfUp]

/-- Claim C4 as amended: the aggregator always returns one of the three
canonical labels, and when every trust and every NLI confidence is
nonnegative the returned confidence is nonnegative; the upper bound 1 of the
original claim does not hold, since the confidence is the unnormalised
larger mass. -/
theorem aggregate_label_mem_conf_nonneg (evidence : List EvidenceItem)
    (nli_out : List NliOut)
    (htrust : ∀ e ∈ evidence, 0 ≤ e.trust)
    (hconf : ∀ n ∈ nli_out, 0 ≤ n.confidence) :
    ((_aggregate evidence nli_out).1 = "Supported" ∨
     (_aggregate evidence nli_out).1 = "Refuted" ∨
     (_aggregate evidence nli_out).1 = "Not Enough Info") ∧
    0 ≤ (_aggregate evidence nli_out).2.1 := by
  rw [aggregate_eq_masses]
  constructor
  · simp only [specVerdictLabel]
    split_ifs <;> simp
  · have hz : ∀ p ∈ evidence.zip nli_out, 0 ≤ p.1.trust ∧ 0 ≤ p.2.confidence := by
      intro p hp
      obtain ⟨h1, h2⟩ := List.of_mem_zip hp
      exact ⟨htrust _ h1, hconf _ h2⟩
    have hs := pairSupport_nonneg _ hz
    have hr := pairRefute_nonneg _ hz
    exact roundTo_nonneg 3 _ (le_trans hs (le_max_left _ _))

/-- Witness for the amended claim C4 at a concrete input. -/
theorem aggregate_label_mem_conf_nonneg_witness :
    (((_aggregate [⟨"a", "web", 1/2⟩] [⟨"entailment", 1/2⟩]).1 = "Supported" ∨
      (_aggregate [⟨"a", "web", 1/2⟩] [⟨"entailment", 1/2⟩]).1 = "Refuted" ∨
      (_aggregate [⟨"a", "web", 1/2⟩] [⟨"entailment", 1/2⟩]).1 = "Not Enough Info") ∧
     0 ≤ (_aggregate [⟨"a", "web", 1/2⟩] [⟨"entailment", 1/2⟩]).2.1) :=
  aggregate_label_mem_conf_nonneg _ _
    (by intro e he; simp at he; rw [he]; norm_num)
    (by intro n hn; simp at hn; rw [hn]; norm_num)

/-- Claim C10: appending a matched evidence item whose NLI label is neutral
changes neither the label nor the confidence of the verdict, and only
appends its entry to the evidence trail. -/
theorem aggregate_neutral_append (evidence : List EvidenceItem)
    (nli_out : List NliOut) (h : evidence.length = nli_out.length)
    (e : EvidenceItem) (n : NliOut) (hn : n.label = "neutral") :
    (_aggregate (evidence ++ [e]) (nli_out ++ [n])).1 =
      (_aggregate evidence nli_out).1 ∧
    (_aggregate (evidence ++ [e]) (nli_out ++ [n])).2.1 =
      (_aggregate evidence nli_out).2.1 ∧
    (_aggregate (evidence ++ [e]) (nli_out ++ [n])).2.2 =
      (_aggregate evidence nli_out).2.2 ++ [entryOf (e, n)] := by
  have hzip : (evidence ++ [e]).zip (nli_out ++ [n]) =
      evidence.zip nli_out ++ [(e, n)] := by
    rw [List.zip_append h]
    rfl
  have hne : (n.label = "entailment") = False := by
    simp only [eq_iff_iff, iff_false, hn]; decide
  have hnc : (n.label = "contradiction") = False := by
    simp only [eq_iff_iff, iff_false, hn]; decide
  have hsup : supportMass (evidence ++ [e]) (nli_out ++ [n]) =
      supportMass evidence nli_out := by
    unfold supportMass pairSupport
    rw [hzip, List.filter_append]
    simp [List.filter_cons, hne]
  have href : refuteMass (evidence ++ [e]) (nli_out ++ [n]) =
      refuteMass evidence nli_out := by
    unfold refuteMass pairRefute
    rw [hzip, List.filter_append]
    simp [List.filter_cons, hnc]
  rw [aggregate_eq_masses, aggregate_eq_masses, hsup, href, hzip]
  simp

/-- Witness for claim C10 at a concrete input: one entailment item of weight
0.95, then a neutral item appended. -/
theorem aggregate_neutral_append_witness :
    (_aggregate ([⟨"a", "web", 1⟩] ++ [⟨"b", "web", 1⟩])
        ([⟨"entailment", 19/20⟩] ++ [⟨"neutral", 9/10⟩])).1 =
      (_aggregate [⟨"a", "web", 1⟩] [⟨"entailment", 19/20⟩]).1 ∧
    (_aggregate ([⟨"a", "web", 1⟩] ++ [⟨"b", "web", 1⟩])
        ([⟨"entailment", 19/20⟩] ++ [⟨"neutral", 9/10⟩])).2.1 =
      (_aggregate [⟨"a", "web", 1⟩] [⟨"entailment", 19/20⟩]).2.1 ∧
    (_aggregate ([⟨"a", "web", 1⟩] ++ [⟨"b", "web", 1⟩])
        ([⟨"entailment", 19/20⟩] ++ [⟨"neutral", 9/10⟩])).2.2 =
      (_aggregate [⟨"a", "web", 1⟩] [⟨"entailment", 19/20⟩]).2.2 ++
        [entryOf (⟨"b", "web", 1⟩, ⟨"neutral", 9/10⟩)] :=
  aggregate_neutral_append [⟨"a", "web", 1⟩] [⟨"entailment", 19/20⟩]
    (by rfl) ⟨"b", "web", 1⟩ ⟨"neutral", 9/10⟩ (by rfl)

/-- The canonical label tuple LABELS shared by verifier2.py and verifier3.py. -/
def LABELS : List String := ["Supported", "Refuted", "Not Enough Info"]

/-- Python str.lower over the character list, ASCII as in the labels. -/
def lowerString (s : String) : String := ⟨s.toList.map Char.toLower⟩

/-- Python substring membership (needle in hay) over the character lists. -/
def strContains (needle hay : String) : Bool :=
  (List.range (hay.toList.length + 1)).any
    (fun i => (hay.toList.drop i).take needle.toList.length == needle.toList)

/-- The case-insensitive plain-text scan for a canonical label: the first
member of LABELS whose lowercase form occurs in the lowercase reply text, as
the fallback loops of Verifier2.classify and Verifier3.classify compute. -/
def scanLabel (text : String) : Option String :=
  LABELS.find? (fun lbl => strContains (lowerString lbl) (lowerString text))

/-- Decision tail of Verifier3.classify (verifier3.py, steps 5 to 8).  The
structured argument is the outcome of the attempted JSON parse of the LLM
reply: some (label, reason) when the reply parsed and carried a canonical
label, none otherwise; the LLM call and the JSON library are external. -/
def verifier3Decision (structured : Option (String × String)) (text : String)
    (evidence : List String) : String × String :=
  match structured with
  | some lr => lr
  | none =>
    match scanLabel text with
    | some lbl => (lbl, text)
    | none =>
      if evidence.isEmpty then ("Not Enough Info", "No evidence to assess.")
      else ("Supported", "Defaulting to Supported based on snippet [1].")

/-- Decision tail of Verifier2.classify (verifier2.py): same parse-then-scan
cascade, but the final default is always Not Enough Info. -/
def verifier2Decision (structured : Option (String × String)) (text : String) :
    String × String :=
  match structured with
  | some lr => lr
  | none =>
    match scanLabel text with
    | some lbl => (lbl, text)
    | none => ("Not Enough Info", "The LLM could not determine a definitive answer.")

/-- Counterexample to claim C2: on a reply that yields no structured label
and no scannable label, Verifier3 with non-empty evidence returns Supported,
not Not Enough Info. -/
theorem verifier3_defaults_to_supported :
    (verifier3Decision .none ("xyzzy") [("some evidence")]).1 = "Supported" ∧
    ¬ (verifier3Decision .none ("xyzzy") [("some evidence")]).1 = "Not Enough Info" := by
  decide

/-- Claim C2 as amended: when the structured parse yields no canonical label
and the case-insensitive scan finds none either, Verifier2 returns
Not Enough Info for every input, while Verifier3 does so only when the
evidence list is empty and otherwise defaults to Supported. -/
theorem classifier_unparsable_default (text : String) (evidence : List String)
    (hscan : scanLabel text = none) :
    (verifier2Decision .none text).1 = "Not Enough Info" ∧
    (verifier3Decision .none text evidence).1 =
      (if evidence.isEmpty then "Not Enough Info" else "Supported") := by
  constructor
  · unfold verifier2Decision
    rw [hscan]
  · unfold verifier3Decision
    rw [hscan]
    by_cases h : evidence.isEmpty <;> simp [h]

/-- Witness for the amended claim C2 at a concrete unparsable reply. -/
theorem classifier_unparsable_default_witness :
    (verifier2Decision .none ("xyzzy")).1 = "Not Enough Info" ∧
    (verifier3Decision .none ("xyzzy") []).1 =
      (if ([] : List String).isEmpty then "Not Enough Info" else "Supported") :=
  classifier_unparsable_default ("xyzzy") [] (by decide)

/-- The two edge-fetch strategies of KGClient2.fetch_paths (kg_client2.py):
restricted candidate-pair queries for a high-degree URI, full paginated
in/out edge fetch otherwise. -/
inductive FetchStrategy
  | restricted
  | unrestricted
deriving DecidableEq

/-- Result of KGClient2._count_edges: the aggregate degree query either
raises, which the except clause turns into float inf (modelled as none), or
yields its result rows, whose first count value is taken, 0 when empty. -/
def _count_edges (queryResult : Except Unit (List ℕ)) : Option ℕ :=
  match queryResult with
  | .error _ => none
  | .ok rows => some (rows.headD 0)

/-- The comparison deg > degree_threshold in KGClient2.fetch_paths; the
float inf produced by a failed count compares greater than every threshold. -/
def is_high_degree (deg : Option ℕ) (threshold : ℕ) : Bool :=
  match deg with
  | none => true
  | some d => threshold < d

/-- The branch of KGClient2.fetch_paths that picks the per-URI strategy from
the estimated degree. -/
def strategyFor (deg : Option ℕ) (threshold : ℕ) : FetchStrategy :=
  if is_high_degree deg threshold then .restricted else .unrestricted

/-- Counterexample to claim C3: at the default threshold 20000, a URI whose
degree query raises is routed to the restricted strategy, not the
unrestricted full edge fetch the claim states. -/
theorem degree_failure_not_unrestricted :
    strategyFor (_count_edges (.error ())) 20000 = FetchStrategy.restricted ∧
    FetchStrategy.restricted ≠ FetchStrategy.unrestricted := by
  decide

/-- Claim C3 as amended: a URI whose degree-estimation query fails is
treated as high-degree (the failed count behaves as an infinite degree) and
is handled by the restricted candidate-pair strategy, for every threshold. -/
theorem degree_failure_restricted (threshold : ℕ) :
    _count_edges (.error ()) = none ∧
    is_high_degree (_count_edges (.error ())) threshold = true ∧
    strategyFor (_count_edges (.error ())) threshold = FetchStrategy.restricted :=
  ⟨rfl, rfl, rfl⟩

/-- Default edge standing where Python indexes path[0] or path[-1]; the
rankers are only handed nonempty paths, and none of the proved statements
depend on this value. -/
def emptyEdge : Edge := ⟨"", "", "", ""⟩

/-- The local-name projection _last shared by the rankers: last slash
segment, then last hash segment. -/
def _last (fragment : String) : String :=
  (((fragment.splitOn ("/")).getLastD ("")).splitOn ("#")).getLastD ("")

/-- The keyword list of EvidenceRanker.is_weak_predicate. -/
def weakKeywords : List String :=
  ["wikiPage", "sameAs", "seeAlso", "externalLink", "redirects",
   "label", "comment", "subject", "page", "type", "url"]

/-- EvidenceRanker.is_weak_predicate: some keyword occurs in the predicate. -/
def is_weak_predicate (pred : String) : Bool :=
  weakKeywords.any (fun keyword => strContains keyword pred)

/-- The pseudo-sentence projection _path_to_text shared by evidence_ranker.py
and evidence_ranker2.py; the one-level flattening step of the latter is the
identity on typed paths. -/
def _path_to_text (path : List Edge) : String :=
  match path with
  | [] => ""
  | e0 :: _ =>
    String.intercalate (" ")
      (_last e0.subject :: path.map (fun e => _last e.predicate ++ " " ++ _last e.object))

/-- Descending order by a rational key, the ordering of the Python stable
sorts with reverse set. -/
def descBy {α : Type} (f : α → ℚ) (a b : α) : Prop := f b ≤ f a

instance {α : Type} (f : α → ℚ) : DecidableRel (descBy f) :=
  fun a b => inferInstanceAs (Decidable (f b ≤ f a))

instance {α : Type} (f : α → ℚ) : IsTotal α (descBy f) :=
  ⟨fun a b => le_total (f b) (f a)⟩

instance {α : Type} (f : α → ℚ) : IsTrans α (descBy f) :=
  ⟨fun _ _ _ h1 h2 => le_trans h2 h1⟩

/-- The external similarity oracles of EvidenceRanker: the SBERT cosine of
the claim embedding against a path text, and the spaCy similarities of the
extracted subject and object against a node name. -/
structure RankerSims where
  sentSim : String → ℚ
  subjSim : String → ℚ
  objSim : String → ℚ

/-- EvidenceRanker.top_k (evidence_ranker.py, lines 51 to 86): weak-predicate
filter, sentence scores, prefilter to the top 100, spaCy blend with weights
0.7, 0.25, 0.25, final sort, top k. -/
def EvidenceRanker_top_k (sims : RankerSims) (paths : List (List Edge))
    (k : ℕ) : List (List Edge × ℚ) :=
  if paths.isEmpty then []
  else
    let filtered := paths.filter (fun p =>
      !(is_weak_predicate (p.headD emptyEdge).predicate ||
        is_weak_predicate (p.getLastD emptyEdge).predicate))
    if filtered.isEmpty then []
    else
      let scored_sent_only := filtered.map (fun p => (sims.sentSim (_path_to_text p), p))
      let top_candidates :=
        (List.insertionSort (descBy Prod.fst) scored_sent_only).take 100
      let scored := top_candidates.map (fun sp =>
        (sp.1 * (7/10) + sims.subjSim (_last (sp.2.headD emptyEdge).subject) * (1/4)
          + sims.objSim (_last (sp.2.getLastD emptyEdge).object) * (1/4), sp.2))
      ((List.insertionSort (descBy Prod.fst) scored).take k).map
        (fun sp => (sp.2, sp.1))

/-- The external scorers of EvidenceRanker2: bi-encoder cosine against the
claim and cross-encoder score of the claim paired with a text. -/
structure Ranker2Sims where
  biSim : String → ℚ
  crossScore : String → ℚ

/-- EvidenceRanker2.top_k (evidence_ranker2.py, lines 45 to 93): optional
bi-encoder prefilter to filter_k, cross-encoder rerank, top k. -/
def EvidenceRanker2_top_k (sims : Ranker2Sims) (paths : List (List Edge))
    (k : ℕ) (filter_k : Option ℕ) (use_bi_encoder : Bool) :
    List (List Edge × ℚ) :=
  if paths.isEmpty then []
  else
    let pt := paths.zip (paths.map _path_to_text)
    let rerank :=
      if use_bi_encoder then
        let ranked := List.insertionSort
          (descBy (fun x : (List Edge × String) × ℚ => x.2))
          (pt.map (fun x => (x, sims.biSim x.2)))
        let ranked :=
          match filter_k with
          | some fk => ranked.take fk
          | none => ranked
        ranked.map Prod.fst
      else pt
    let reranked := List.insertionSort
      (descBy (fun x : (List Edge × String) × ℚ => x.2))
      (rerank.map (fun x => (x, sims.crossScore x.2)))
    (reranked.take k).map (fun x => (x.1.1, x.2))

theorem sorted_take_map {α β : Type} (f : α → ℚ) (g : α → β) (h : β → ℚ)
    (hfg : ∀ a, h (g a) = f a) (l : List α) (k : ℕ) :
    (((List.insertionSort (descBy f) l).take k).map g).Sorted
      (fun a b => h b ≤ h a) := by
  rw [List.Sorted, List.pairwise_map]
  have hs : (List.insertionSort (descBy f) l).Pairwise (descBy f) :=
    List.sorted_insertionSort (descBy f) l
  have ht := hs.sublist (List.take_sublist k _)
  exact ht.imp (fun hab => by rw [hfg, hfg]; exact hab)

/-- Claim C5: both rankers return at most k items, sorted by non-increasing
score, and an empty input yields an empty output. -/
theorem topk_bounded_sorted_empty :
    (∀ (sims : RankerSims) (paths : List (List Edge)) (k : ℕ),
      (EvidenceRanker_top_k sims paths k).length ≤ k ∧
      (EvidenceRanker_top_k sims paths k).Sorted (fun a b => b.2 ≤ a.2) ∧
      EvidenceRanker_top_k sims [] k = []) ∧
    (∀ (sims : Ranker2Sims) (paths : List (List Edge)) (k : ℕ)
      (filter_k : Option ℕ) (use_bi_encoder : Bool),
      (EvidenceRanker2_top_k sims paths k filter_k use_bi_encoder).length ≤ k ∧
      (EvidenceRanker2_top_k sims paths k filter_k use_bi_encoder).Sorted
        (fun a b => b.2 ≤ a.2) ∧
      EvidenceRanker2_top_k sims [] k filter_k use_bi_encoder = []) := by
  constructor
  · intro sims paths k
    refine ⟨?_, ?_, rfl⟩
    · unfold EvidenceRanker_top_k
      split
      · simp
      · dsimp only
        split
        · simp
        · simp
    · unfold EvidenceRanker_top_k
      split
      · simp
      · dsimp only
        split
        · simp
        · exact sorted_take_map Prod.fst (fun sp => (sp.2, sp.1)) Prod.snd
            (fun a => rfl) _ k
  · intro sims paths k filter_k use_bi_encoder
    refine ⟨?_, ?_, rfl⟩
    · unfold EvidenceRanker2_top_k
      split
      · simp
      · simp
    · unfold EvidenceRanker2_top_k
      split
      · simp
      · exact sorted_take_map (fun x : (List Edge × String) × ℚ => x.2)
          (fun x => (x.1.1, x.2)) Prod.snd (fun a => rfl) _ k

/-- Concrete similarity oracles for the blend check: sentence similarity 1,
entity similarities 0. -/
def simsUnit : RankerSims :=
  { sentSim := fun _ => 1, subjSim := fun _ => 0, objSim := fun _ => 0 }

/-- The single-edge path used for the blend check. -/
def pathSpO : List Edge := [⟨"S", "p", "O", "dbpedia"⟩]

theorem ranker_topk_unit_eval :
    EvidenceRanker_top_k simsUnit [pathSpO] 1 = [(pathSpO, 7/10)] := by
  have hw : is_weak_predicate ("p") = false := by decide
  simp only [EvidenceRanker_top_k, pathSpO, simsUnit, List.isEmpty_cons,
    Bool.false_eq_true, if_false, List.filter_cons, List.filter_nil,
    List.headD_cons, List.getLastD_cons, List.getLastD_nil, hw,
    Bool.or_self, Bool.not_false, if_true, List.map_cons, List.map_nil,
    List.insertionSort, List.orderedInsert, List.take_succ_cons,
    List.take_nil]
  norm_num

/-- Counterexample to claim C6: with sentence similarity 1 and entity
similarities 0 the surviving path scores 0.7, the sentence-similarity weight
the code uses, where the claimed blend 0.5, 0.25, 0.25 would give 0.5. -/
theorem ranker_blend_is_not_half :
    EvidenceRanker_top_k simsUnit [pathSpO] 1 = [(pathSpO, 7/10)] ∧
    (7/10 : ℚ) ≠ 1 * (1/2) + 0 * (1/4) + 0 * (1/4) := by
  refine ⟨ranker_topk_unit_eval, by norm_num⟩

/-- Claim C6 as amended: in the bi-encoder-only KG-path scoring mode, every
returned path carries the score
sentence_sim * 0.7 + subject_sim * 0.25 + object_sim * 0.25, the subject and
object similarities comparing the claim triple against the local names of
the start and end node of the path. -/
theorem ranker_blend_formula (sims : RankerSims) (paths : List (List Edge))
    (k : ℕ) (p : List Edge) (s : ℚ)
    (hmem : (p, s) ∈ EvidenceRanker_top_k sims paths k) :
    s = sims.sentSim (_path_to_text p) * (7/10)
      + sims.subjSim (_last (p.headD emptyEdge).subject) * (1/4)
      + sims.objSim (_last (p.getLastD emptyEdge).object) * (1/4) := by
  unfold EvidenceRanker_top_k at hmem
  by_cases h0 : paths.isEmpty
  · rw [if_pos h0] at hmem
    simp at hmem
  · rw [if_neg h0] at hmem
    dsimp only at hmem
    by_cases h1 : (paths.filter (fun p =>
      !(is_weak_predicate (p.headD emptyEdge).predicate ||
        is_weak_predicate (p.getLastD emptyEdge).predicate))).isEmpty
    · rw [if_pos h1] at hmem
      simp at hmem
    · rw [if_neg h1] at hmem
      obtain ⟨sp, hsp, hpair⟩ := List.mem_map.mp hmem
      obtain ⟨hp2, hs2⟩ := Prod.ext_iff.mp hpair
      have hsp2 := (List.perm_insertionSort (descBy Prod.fst) _).mem_iff.mp
        (List.mem_of_mem_take hsp)
      obtain ⟨tc, htc, htc2⟩ := List.mem_map.mp hsp2
      have htc3 := (List.perm_insertionSort (descBy Prod.fst) _).mem_iff.mp
        (List.mem_of_mem_take htc)
      obtain ⟨q, hq, hq2⟩ := List.mem_map.mp htc3
      have hqfst : tc.1 = sims.sentSim (_path_to_text tc.2) := by
        rw [← hq2]
      obtain ⟨hfst, hsnd⟩ := Prod.ext_iff.mp htc2
      have htcp : tc.2 = p := by
        simp only at hsnd hp2
        rw [hsnd, hp2]
      simp only at hfst hs2 hp2
      rw [← hs2, ← hfst, hqfst, htcp]

/-- Witness for the amended claim C6: the single surviving path of the blend
check is returned with exactly the 0.7, 0.25, 0.25 blend of its similarity
scores. -/
theorem ranker_blend_formula_witness :
    (pathSpO, (7/10 : ℚ)) ∈ EvidenceRanker_top_k simsUnit [pathSpO] 1 ∧
    (7/10 : ℚ) = simsUnit.sentSim (_path_to_text pathSpO) * (7/10)
      + simsUnit.subjSim (_last (pathSpO.headD emptyEdge).subject) * (1/4)
      + simsUnit.objSim (_last (pathSpO.getLastD emptyEdge).object) * (1/4) := by
  have hout : EvidenceRanker_top_k simsUnit [pathSpO] 1 = [(pathSpO, 7/10)] := by
    have hw : is_weak_predicate ("p") = false := by decide
    simp only [EvidenceRanker_top_k, pathSpO, simsUnit, List.isEmpty_cons,
      Bool.false_eq_true, if_false, List.filter_cons, List.filter_nil,
      List.headD_cons, List.getLastD_cons, List.getLastD_nil, hw,
      Bool.or_self, Bool.not_false, if_true, List.map_cons, List.map_nil,
      List.insertionSort, List.orderedInsert, List.take_succ_cons,
      List.take_nil]
    norm_num
  have hmem : (pathSpO, (7/10 : ℚ)) ∈ EvidenceRanker_top_k simsUnit [pathSpO] 1 := by
    rw [hout]
    exact List.mem_singleton_self _
  exact ⟨hmem, ranker_blend_formula simsUnit [pathSpO] 1 pathSpO (7/10) hmem⟩

/-- One web evidence dict as passed to synthesise (snippet and trust are the
fields the ranking reads). -/
structure WebEvidence where
  snippet : String
  trust : ℚ
deriving DecidableEq

/-- One scored evidence record as produced by the cross-encoder branch of
synthesiser.py. -/
structure ScoredEvidence where
  snippet : String
  trust : ℚ
  cross_encoder_score : ℚ
  ranking_method : String
  combined : ℚ
deriving DecidableEq

/-- Python semantics of _synthesise_bi_encoder (synthesiser.py, lines 38 to
70).  After the first loop the name sim is bound to the similarity of the
LAST evidence item, a scalar; the second loop then evaluates
zip(evidence, sim), which raises TypeError (iteration over a 0-d tensor)
whenever evidence is non-empty, and NameError when evidence is empty, since
sim was never bound.  The function never returns normally. -/
def _synthesise_bi_encoder (_biSim : String → ℚ) (evidence : List WebEvidence)
    (_top_k : ℕ) : Except String (List ScoredEvidence) :=
  if evidence.isEmpty then .error ("NameError: name sim is not defined")
  else .error ("TypeError: iteration over a 0-d tensor")

/-- _synthesise_cross_encoder (synthesiser.py, lines 73 to 102): the
cross-encoder scores of the claim-snippet pairs come from an external call
that may raise, hence the Except parameter; on success every item gets
combined = 0.8 * score + 0.2 * trust and the items are returned sorted by
combined descending, cut to top_k; on any failure inside the try block the
except clause falls back to _synthesise_bi_encoder. -/
def _synthesise_cross_encoder (biSim : String → ℚ)
    (crossScores : Except String (List ℚ)) (evidence : List WebEvidence)
    (top_k : ℕ) : Except String (List ScoredEvidence) :=
  match crossScores with
  | .ok scores =>
    let scored := (evidence.zip scores).map (fun es =>
      ({ snippet := es.1.snippet, trust := es.1.trust,
         cross_encoder_score := es.2, ranking_method := "cross_encoder",
         combined := es.2 * (8/10) + es.1.trust * (2/10) } : ScoredEvidence))
    .ok ((List.insertionSort (descBy ScoredEvidence.combined) scored).take top_k)
  | .error _ => _synthesise_bi_encoder biSim evidence top_k

/-- synthesise (synthesiser.py, lines 14 to 35): empty evidence short
circuits to an empty list, then the configured branch runs. -/
def synthesise (biSim : String → ℚ) (crossScores : Except String (List ℚ))
    (evidence : List WebEvidence) (top_k : ℕ) (use_cross_encoder : Bool) :
    Except String (List ScoredEvidence) :=
  if evidence.isEmpty then .ok []
  else if use_cross_encoder then
    _synthesise_cross_encoder biSim crossScores evidence top_k
  else _synthesise_bi_encoder biSim evidence top_k

/-- Claim C7 states the intended behaviour: a failing cross-encoder call
falls back to a bi-encoder-only ranking instead of propagating.  The code
does route the failure into _synthesise_bi_encoder, but that function always
raises on non-empty evidence, because its second loop iterates
zip(evidence, sim) over the stale scalar loop variable sim instead of the
tensor sims, so the failure does propagate to the caller: here evaluated on
a one-item evidence list with a raising cross-encoder call. -/
theorem synthesise_fallback_raises :
    synthesise (fun _ => 1/2) (.error ("network failure")) [⟨"s", 9/10⟩] 100 true
      = .error ("TypeError: iteration over a 0-d tensor") := rfl

/-- An RDF term of the abstract endpoint dataset; SPARQL distinguishes IRIs
from literals, which FILTER isIRI tests. -/
inductive RdfTerm
  | iri (value : String)
  | lit (value : String)
deriving DecidableEq

/-- The string value a SPARQL binding carries for a term. -/
def RdfTerm.value : RdfTerm → String
  | .iri v => v
  | .lit v => v

/-- The SPARQL isIRI test. -/
def RdfTerm.isIRI : RdfTerm → Bool
  | .iri _ => true
  | .lit _ => false

/-- One stored RDF triple of an endpoint dataset; subjects of RDF triples
are IRIs, objects may be IRIs or literals. -/
structure KGTriple where
  subject : String
  predicate : String
  object : RdfTerm
deriving DecidableEq

/-- fetch_outgoing_edges of dbpedia_client.py and wikidata_client.py:
SELECT p o WHERE entity p o LIMIT limit, one Edge per row. -/
def fetch_outgoing_edges (kg : List KGTriple) (entity : String) (limit : ℕ)
    (src : String) : List Edge :=
  ((kg.filter (fun t => t.subject == entity)).take limit).map
    (fun t => ⟨entity, t.predicate, t.object.value, src⟩)

/-- fetch_incoming_edges: SELECT s p WHERE s p entity LIMIT limit; the
pattern object is the IRI named entity, so only IRI objects match. -/
def fetch_incoming_edges (kg : List KGTriple) (entity : String) (limit : ℕ)
    (src : String) : List Edge :=
  ((kg.filter (fun t => t.object == RdfTerm.iri entity)).take limit).map
    (fun t => ⟨t.subject, t.predicate, entity, src⟩)

/-- fetch_two_hop_paths (dbpedia_client.py lines 51 to 68 and the identical
wikidata_client.py method): the SPARQL join of s_uri p1 x with x p2 o_uri
under FILTER isIRI(x) and LIMIT, then two chained edges per result row. -/
def fetch_two_hop_paths (kg : List KGTriple) (s_uri o_uri : String)
    (limit : ℕ) (src : String) : List (List Edge) :=
  let rows := (kg.filter (fun t1 => t1.subject == s_uri && t1.object.isIRI)).flatMap
    (fun t1 => (kg.filter (fun t2 =>
        t2.subject == t1.object.value && t2.object == RdfTerm.iri o_uri)).map
      (fun t2 => (t1.predicate, t1.object.value, t2.predicate)))
  (rows.take limit).map (fun r =>
    [⟨s_uri, r.1, r.2.1, src⟩, ⟨r.2.1, r.2.2, o_uri, src⟩])

/-- KGClient.fetch_paths (kg_client.py, lines 27 to 65): DBpedia outgoing
edges per subject URI, incoming edges per object URI, two-hop paths per
subject-object pair of distinct URIs, then the same against Wikidata. -/
def fetch_paths (dbp wd : List KGTriple) (s_dbp s_wd o_dbp o_wd : List String)
    (limit_edge limit_two_hop : ℕ) (max_hops : ℕ) : List (List Edge) :=
  let dbp1 := s_dbp.flatMap (fun s =>
    (fetch_outgoing_edges dbp s limit_edge ("dbpedia")).map (fun e => [e]))
  let dbp2 := o_dbp.flatMap (fun o =>
    (fetch_incoming_edges dbp o limit_edge ("dbpedia")).map (fun e => [e]))
  let dbp3 := if 2 ≤ max_hops then
      (List.product s_dbp o_dbp).flatMap (fun so =>
        if so.1 ≠ so.2 then
          fetch_two_hop_paths dbp so.1 so.2 limit_two_hop ("dbpedia")
        else [])
    else []
  let wd1 := s_wd.flatMap (fun s =>
    (fetch_outgoing_edges wd s limit_edge ("wikidata")).map (fun e => [e]))
  let wd2 := o_wd.flatMap (fun o =>
    (fetch_incoming_edges wd o limit_edge ("wikidata")).map (fun e => [e]))
  let wd3 := if 2 ≤ max_hops then
      (List.product s_wd o_wd).flatMap (fun so =>
        if so.1 ≠ so.2 then
          fetch_two_hop_paths wd so.1 so.2 limit_two_hop ("wikidata")
        else [])
    else []
  dbp1 ++ dbp2 ++ dbp3 ++ wd1 ++ wd2 ++ wd3

theorem mem_fetch_two_hop (kg : List KGTriple) (s o : String) (lim : ℕ)
    (src : String) (p : List Edge) (h : p ∈ fetch_two_hop_paths kg s o lim src) :
    ∃ p1 x p2, p = [⟨s, p1, x, src⟩, ⟨x, p2, o, src⟩] ∧
      KGTriple.mk s p1 (RdfTerm.iri x) ∈ kg := by
  unfold fetch_two_hop_paths at h
  obtain ⟨r, hr, hrp⟩ := List.mem_map.mp h
  have hr2 := List.mem_of_mem_take hr
  obtain ⟨t1, ht1, hmap⟩ := List.mem_flatMap.mp hr2
  obtain ⟨t2, ht2, hrow⟩ := List.mem_map.mp hmap
  obtain ⟨ht1kg, ht1c⟩ := List.mem_filter.mp ht1
  have ht1s : t1.subject = s := by
    have := (Bool.and_eq_true _ _).mp ht1c
    exact eq_of_beq this.1
  have ht1i : t1.object.isIRI = true := ((Bool.and_eq_true _ _).mp ht1c).2
  obtain ⟨x, hx⟩ : ∃ x, t1.object = RdfTerm.iri x := by
    cases hobj : t1.object with
    | iri v => exact ⟨v, rfl⟩
    | lit v => rw [hobj] at ht1i; exact absurd ht1i (by simp [RdfTerm.isIRI])
  refine ⟨t1.predicate, x, t2.predicate, ?_, ?_⟩
  · rw [← hrp, ← hrow]
    simp [hx, RdfTerm.value]
  · have : KGTriple.mk s t1.predicate (RdfTerm.iri x) = t1 := by
      cases t1
      simp only at ht1s hx
      rw [ht1s, hx]
    rw [this]
    exact ht1kg

/-- Claim C8: every path the KG path finder returns has length 1 or 2; in a
2-hop path the two edges share the intermediate node, that intermediate was
matched as an IRI (it occurs as IRI object of a stored triple under the
first edge), and the endpoints of a 2-hop path are distinct URIs, since a
two-hop query is only issued for distinct subject and object. -/
theorem fetch_paths_shape (dbp wd : List KGTriple)
    (s_dbp s_wd o_dbp o_wd : List String) (limit_edge limit_two_hop : ℕ)
    (max_hops : ℕ) (path : List Edge)
    (hmem : path ∈ fetch_paths dbp wd s_dbp s_wd o_dbp o_wd
      limit_edge limit_two_hop max_hops) :
    (path.length = 1 ∨ path.length = 2) ∧
    (∀ e1 e2, path = [e1, e2] →
      e1.object = e2.subject ∧ e1.subject ≠ e2.object ∧
      (KGTriple.mk e1.subject e1.predicate (RdfTerm.iri e1.object) ∈ dbp ∨
       KGTriple.mk e1.subject e1.predicate (RdfTerm.iri e1.object) ∈ wd)) := by
  unfold fetch_paths at hmem
  dsimp only at hmem
  simp only [List.mem_append] at hmem
  have hsingle : ∀ (kgl : List String) (F : String → List Edge),
      path ∈ kgl.flatMap (fun s => (F s).map (fun e => [e])) →
      (path.length = 1 ∨ path.length = 2) ∧
      (∀ e1 e2, path = [e1, e2] →
        e1.object = e2.subject ∧ e1.subject ≠ e2.object ∧
        (KGTriple.mk e1.subject e1.predicate (RdfTerm.iri e1.object) ∈ dbp ∨
         KGTriple.mk e1.subject e1.predicate (RdfTerm.iri e1.object) ∈ wd)) := by
    intro kgl F hp
    obtain ⟨u, _, hu2⟩ := List.mem_flatMap.mp hp
    obtain ⟨e, _, he2⟩ := List.mem_map.mp hu2
    constructor
    · left; rw [← he2]; rfl
    · intro e1 e2 hpe
      rw [← he2] at hpe
      exact absurd (congrArg List.length hpe) (by simp)
  have htwo : ∀ (store : List KGTriple) (kgs kgo : List String) (src : String)
      (hst : store = dbp ∨ store = wd),
      path ∈ (if 2 ≤ max_hops then
        (List.product kgs kgo).flatMap (fun so =>
          if so.1 ≠ so.2 then
            fetch_two_hop_paths store so.1 so.2 limit_two_hop src
          else [])
        else []) →
      (path.length = 1 ∨ path.length = 2) ∧
      (∀ e1 e2, path = [e1, e2] →
        e1.object = e2.subject ∧ e1.subject ≠ e2.object ∧
        (KGTriple.mk e1.subject e1.predicate (RdfTerm.iri e1.object) ∈ dbp ∨
         KGTriple.mk e1.subject e1.predicate (RdfTerm.iri e1.object) ∈ wd)) := by
    intro store kgs kgo src hst hp
    by_cases hmh : 2 ≤ max_hops
    · rw [if_pos hmh] at hp
      obtain ⟨so, _, hso2⟩ := List.mem_flatMap.mp hp
      by_cases hne : so.1 ≠ so.2
      · rw [if_pos hne] at hso2
        obtain ⟨p1, x, p2, hpe, hkg⟩ :=
          mem_fetch_two_hop store so.1 so.2 limit_two_hop src path hso2
        constructor
        · right; rw [hpe]; rfl
        · intro e1 e2 hpe2
          rw [hpe] at hpe2
          simp only [List.cons.injEq, and_true] at hpe2
          obtain ⟨h1, h2⟩ := hpe2
          subst h1 h2
          refine ⟨rfl, hne, ?_⟩
          rcases hst with h | h
          · left; rw [← h]; exact hkg
          · right; rw [← h]; exact hkg
      · rw [if_neg hne] at hso2
        exact absurd hso2 (List.not_mem_nil path)
    · rw [if_neg hmh] at hp
      exact absurd hp (List.not_mem_nil path)
  rcases hmem with ((((h | h) | h) | h) | h) | h
  · exact hsingle s_dbp (fun s => fetch_outgoing_edges dbp s limit_edge ("dbpedia")) h
  · exact hsingle o_dbp (fun o => fetch_incoming_edges dbp o limit_edge ("dbpedia")) h
  · exact htwo dbp s_dbp o_dbp ("dbpedia") (Or.inl rfl) h
  · exact hsingle s_wd (fun s => fetch_outgoing_edges wd s limit_edge ("wikidata")) h
  · exact hsingle o_wd (fun o => fetch_incoming_edges wd o limit_edge ("wikidata")) h
  · exact htwo wd s_wd o_wd ("wikidata") (Or.inr rfl) h

/-- A two-triple dataset with a shared intermediate for the path-shape
witness. -/
def kgA : List KGTriple := [⟨"S", "a", RdfTerm.iri ("M")⟩, ⟨"M", "b", RdfTerm.iri ("O")⟩]

/-- First hop of the witness path. -/
def eSaM : Edge := ⟨"S", "a", "M", "dbpedia"⟩

/-- Second hop of the witness path. -/
def eMbO : Edge := ⟨"M", "b", "O", "dbpedia"⟩

/-- Witness for claim C8: on the concrete dataset, the 2-hop path through M
is returned and satisfies every part of the invariant. -/
theorem fetch_paths_shape_witness :
    [eSaM, eMbO] ∈ fetch_paths kgA [] [("S")] [] [("O")] [] 10 10 2 ∧
    (([eSaM, eMbO] : List Edge).length = 1 ∨
      ([eSaM, eMbO] : List Edge).length = 2) ∧
    eSaM.object = eMbO.subject ∧ eSaM.subject ≠ eMbO.object ∧
    (KGTriple.mk eSaM.subject eSaM.predicate (RdfTerm.iri eSaM.object) ∈ kgA ∨
     KGTriple.mk eSaM.subject eSaM.predicate (RdfTerm.iri eSaM.object) ∈
       ([] : List KGTriple)) := by
  have hmem : [eSaM, eMbO] ∈ fetch_paths kgA [] [("S")] [] [("O")] [] 10 10 2 := by
    decide
  have h := fetch_paths_shape kgA [] [("S")] [] [("O")] [] 10 10 2 [eSaM, eMbO] hmem
  exact ⟨hmem, h.1, h.2 eSaM eMbO rfl⟩

/-- The (subject, predicate, object) key of the dedup loop in api.py. -/
def keyOf (t : Triple) : String × String × String :=
  (t.subject, t.predicate, t.object)

/-- One iteration of the dedup loop of the /triples endpoint (api.py, lines
37 to 48): the accumulator holds the seen key set and the kept triples. -/
def dedupStep (acc : List (String × String × String) × List Triple)
    (t : Triple) : List (String × String × String) × List Triple :=
  if keyOf t ∈ acc.1 then acc else (keyOf t :: acc.1, acc.2 ++ [t])

/-- The triple-key dedup of api.py over the pooled results of all retrieval
calls. -/
def dedupTriples (ts : List Triple) : List Triple :=
  (ts.foldl dedupStep ([], [])).2

/-- Modelled from the spec: the retriever wiring KGClient.fetch_paths to
EvidenceRanker2.top_k (class KGEvidenceRetriever, imported by pipeline.py
but absent from the sources at hand) deduplicates the pooled evidence by
(subject, predicate, object) key before ranking, as Scenario E of the spec
prescribes, using the same triple-key fold the /triples endpoint applies. -/
def rankerPool (pool : List Triple) : List Triple := dedupTriples pool

theorem keyOf_inj {t u : Triple} (h : keyOf t = keyOf u) : t = u := by
  cases t; cases u
  simp only [keyOf, Prod.mk.injEq] at h
  simp only [Triple.mk.injEq]
  exact ⟨h.1, h.2.1, h.2.2⟩

theorem dedup_foldl_count (ts : List Triple)
    (acc : List (String × String × String) × List Triple)
    (hinv : ∀ u : Triple, acc.2.count u = if keyOf u ∈ acc.1 then 1 else 0) :
    ∀ u : Triple, ((ts.foldl dedupStep acc).2).count u =
      if keyOf u ∈ (ts.foldl dedupStep acc).1 then 1 else 0 := by
  induction ts generalizing acc with
  | nil => exact hinv
  | cons t ts ih =>
    rw [List.foldl_cons]
    apply ih
    intro u
    unfold dedupStep
    by_cases hk : keyOf t ∈ acc.1
    · rw [if_pos hk]
      exact hinv u
    · rw [if_neg hk]
      by_cases hu : u = t
      · subst hu
        have h0 : acc.2.count u = 0 := by
          have h := hinv u
          rw [if_neg hk] at h
          exact h
        simp [List.count_append, h0]
      · have hku : keyOf u ∉ [keyOf t] := by
          intro hmem
          rcases List.mem_singleton.mp hmem with h
          exact hu (keyOf_inj h)
        have h := hinv u
        simp only [List.count_append, h, List.mem_cons]
        have hc0 : List.count u [t] = 0 := by
          simp [List.count_singleton]
          intro h
          exact absurd (congrArg keyOf h) (fun hh => hku (List.mem_singleton.mpr hh.symm))
        rw [hc0, add_zero]
        have hne : ¬ keyOf u = keyOf t := fun hh =>
          hku (List.mem_singleton.mpr hh)
        simp [hne]

theorem dedup_foldl_seen (ts : List Triple)
    (acc : List (String × String × String) × List Triple) :
    (∀ x ∈ acc.1, x ∈ (ts.foldl dedupStep acc).1) ∧
    (∀ u ∈ ts, keyOf u ∈ (ts.foldl dedupStep acc).1) := by
  induction ts generalizing acc with
  | nil => exact ⟨fun _ hx => hx, fun u hu => absurd hu (List.not_mem_nil u)⟩
  | cons t ts ih =>
    rw [List.foldl_cons]
    have hsub : ∀ x ∈ acc.1, x ∈ (dedupStep acc t).1 := by
      intro x hx
      unfold dedupStep
      by_cases hk : keyOf t ∈ acc.1
      · rw [if_pos hk]; exact hx
      · rw [if_neg hk]; exact List.mem_cons_of_mem _ hx
    obtain ⟨ihmono, ihcov⟩ := ih (dedupStep acc t)
    refine ⟨fun x hx => ihmono x (hsub x hx), ?_⟩
    intro u hu
    rcases List.mem_cons.mp hu with h | h
    · subst h
      apply ihmono
      unfold dedupStep
      by_cases hk : keyOf u ∈ acc.1
      · rw [if_pos hk]; exact hk
      · rw [if_neg hk]; exact List.mem_cons_self _ _
    · exact ihcov u h

/-- Claim C9: the evidence pool is deduplicated by triple-key before it is
ranked: every triple of the retrieved pool occurs exactly once in the pool
the ranker receives and scores.  The wiring of the dedup into the ranking
pipeline is modelled from the spec, see rankerPool. -/
theorem ranker_pool_dedup_unique (pool : List Triple) (t : Triple)
    (h : t ∈ pool) : (rankerPool pool).count t = 1 := by
  unfold rankerPool dedupTriples
  have hc := dedup_foldl_count pool ([], []) (by intro u; simp) t
  have hs := (dedup_foldl_seen pool ([], [])).2 t h
  rw [hc, if_pos hs]

/-- Witness for claim C9: the duplicate triple of a three-element pool is
kept exactly once. -/
theorem ranker_pool_dedup_unique_witness :
    (rankerPool [⟨"S", "p", "O"⟩, ⟨"A", "q", "B"⟩, ⟨"S", "p", "O"⟩]).count
      ⟨"S", "p", "O"⟩ = 1 :=
  ranker_pool_dedup_unique _ _ (List.mem_cons_self _ _)
